import Mathlib

/-
  Verification of the DataNova profiling core (src/datanova/core.py).

  Shallow embedding conventions:
  * A dataframe cell is `Option Value`: `none` models a missing entry
    (Python None / NaN); `Value` models the cell contents (int, float,
    string).  Floating point numbers are modelled as exact rationals,
    so every statistic below is the exact value of the formula the
    source computes; rounding to 2 decimals is modelled exactly on the
    rationals (numpy and Python both round halves to even).
  * Fallible operations return `Except DNErr`, one constructor per
    exception the source can raise on the modelled inputs.
  * `print` output of a call is returned as an explicit list of lines.
-/

namespace DataNova

/-- A non-missing cell value: Python int, float (as an exact rational),
or string. -/
inductive Value where
  | vint (n : ℤ)
  | vnum (q : ℚ)
  | vstr (s : String)
deriving DecidableEq

/-- A dataframe cell; `none` is a missing value (None / NaN). -/
abbrev Cell := Option Value

/-- The numeric content of a value, if any. -/
def Value.toNumQ : Value → Option ℚ
  | .vint n => some (n : ℚ)
  | .vnum q => some q
  | .vstr _ => none

/-- Whether a value is numeric (int or float). -/
def Value.isNum : Value → Bool
  | .vint _ => true
  | .vnum _ => true
  | .vstr _ => false

/-- Python equality between cell values: numbers compare by numeric
value (1 == 1.0 in Python), strings compare as strings, and a number
never equals a string. -/
def veq (a b : Value) : Bool :=
  match a, b with
  | .vstr s, .vstr t => s == t
  | .vstr _, _ => false
  | _, .vstr _ => false
  | a, b =>
    match a.toNumQ, b.toNumQ with
    | some x, some y => x == y
    | _, _ => false

/-- Python str() of a value.  str of an int is its decimal form; str of
a string is the string itself.  Floats render with a trailing ".0" when
integral; the general float repr is not modelled further (no claim
evaluates it on a non-integral float). -/
def pyStr : Value → String
  | .vint n => toString n
  | .vnum q => if q.den = 1 then toString q.num ++ ".0" else toString q
  | .vstr s => s

/-- The categorical coercion in bar_chart_data:
fillna("N/A").astype(str) — a missing cell becomes the string "N/A",
any other cell becomes its Python string form. -/
def coerceCell : Cell → String
  | none => "N/A"
  | some v => pyStr v

/-! ### Rounding

numpy `.round(2)` and Python `round(x, 2)` round halves to even.  We
model this exactly on rationals.  -/

/-- Round a rational to the nearest integer, halves to even
(banker's rounding, as numpy and Python round). -/
def rndHE (q : ℚ) : ℤ :=
  if q - (⌊q⌋ : ℚ) < 1/2 then ⌊q⌋
  else if 1/2 < q - (⌊q⌋ : ℚ) then ⌊q⌋ + 1
  else if Even ⌊q⌋ then ⌊q⌋ else ⌊q⌋ + 1

/-- Round to 2 decimal places, halves to even. -/
def round2 (q : ℚ) : ℚ := (rndHE (100 * q) : ℚ) / 100

/-- Round to 0 decimal places (whole percent), halves to even. -/
def round0 (q : ℚ) : ℤ := rndHE q

/-- Binary length of a number: fuel-driven so that it unfolds in
O(log n) steps; the fuel argument only ever needs log2 n decrements. -/
def bitsAux : ℕ → ℕ → ℕ
  | 0, _ => 0
  | f + 1, n => if n = 0 then 0 else bitsAux f (n / 2) + 1

/-- Exact integer square root by binary digit descent, trying bit k
down to bit 0 and keeping a candidate whenever its square still fits
under n.  Structurally recursive on the bit index k. -/
def isqrtDown (n : ℕ) : ℕ → ℕ → ℕ
  | r, 0 => if (r + 1) * (r + 1) ≤ n then r + 1 else r
  | r, k + 1 =>
    isqrtDown n
      (if (r + 2 ^ (k + 1)) * (r + 2 ^ (k + 1)) ≤ n then r + 2 ^ (k + 1) else r)
      k

/-- Exact integer square root (largest r with r * r ≤ n), starting the
digit descent above every bit of n. -/
def isqrt (n : ℕ) : ℕ :=
  if n = 0 then 0 else isqrtDown n 0 (bitsAux n n)

/-- round2 of the square root of a nonnegative rational: the value the
source stores for a standard deviation.  Computed exactly with integer
square roots; an exact half (measure-zero for the source's float data,
and never reached by a claim) rounds up rather than to even. -/
def sqrtRound2 (q : ℚ) : ℚ :=
  ((((isqrt (40000 * q.num.toNat * q.den) / q.den + 1) / 2 : ℕ) : ℚ)) / 100

/-! ### List utilities mirroring the pandas building blocks -/

/-- Distinct elements of a list in order of first occurrence, as a hash
table based counting routine visits them.  `seen` accumulates the keys
already emitted. -/
def firstSeenAux (eq : α → α → Bool) (seen : List α) : List α → List α
  | [] => []
  | x :: rest =>
    if seen.any (fun y => eq y x) then firstSeenAux eq seen rest
    else x :: firstSeenAux eq (x :: seen) rest

/-- Distinct elements in first-seen order. -/
def firstSeenBy (eq : α → α → Bool) (l : List α) : List α :=
  firstSeenAux eq [] l

/-- Insert into a sorted list, before the leftmost element it compares
le to; used to build a stable ascending sort. -/
def insertLe (le : α → α → Bool) (x : α) : List α → List α
  | [] => [x]
  | y :: ys => if le x y then x :: y :: ys else y :: insertLe le x ys

/-- Stable ascending insertion sort: equal elements keep their input
order. -/
def isortBy (le : α → α → Bool) (l : List α) : List α :=
  l.foldr (insertLe le) []

/-- pandas Series.value_counts(): count each distinct string, then sort
by count descending.  pandas sorts descending by reversing an
ascending argsort, so equal counts appear in reverse first-seen order
(exact for the small inputs of the claims below, where numpy's
introsort is an insertion sort; for long runs of equal counts the tie
order is unspecified, and no claim depends on it there). -/
def valueCounts (strs : List String) : List (String × ℕ) :=
  let pairs := (firstSeenBy (· == ·) strs).map (fun s => (s, strs.count s))
  (isortBy (fun a b => a.2 ≤ b.2) pairs).reverse

/-! ### Datasets -/

/-- An in-memory dataframe: named columns of equal length with
pairwise distinct names (a well-formed table in the sense of the
design's data model). -/
structure Dataset where
  nRows : ℕ
  cols : List (String × List Cell)
  nodupNames : (cols.map Prod.fst).Nodup
  lenEq : ∀ c ∈ cols, c.2.length = nRows

/-- The column names, in order. -/
def Dataset.names (df : Dataset) : List String := df.cols.map Prod.fst

/-- Column lookup (df[name]); `none` when the name is absent. -/
def Dataset.findCol (df : Dataset) (v : String) : Option (List Cell) :=
  (df.cols.find? (fun c => c.1 == v)).map Prod.snd

/-- Errors the modelled operations can raise. -/
inductive DNErr where
  /-- KeyError from df[name] or the explicit ValueError in hist_data
  when a requested column is absent. -/
  | columnNotFound (name : String)
  /-- ValueError from DataFrame.describe on a frame without columns. -/
  | describeNoColumns
  /-- AttributeError in hist_data when a non-numeric column's
  statistics (strings) are rounded. -/
  | nonNumericColumn (name : String)
deriving DecidableEq

deriving instance DecidableEq for Except

/-! ### bar_chart_data — the categorical frequency aggregator -/

/-- One row of the frequency table: value, occurrence count, percentage
of total (2 decimals), cumulative percentage (2 decimals).  The value
column always holds strings, by the astype(str) coercion. -/
structure FreqRow where
  value : String
  count : ℕ
  percentage : ℚ
  cumPct : ℚ
deriving DecidableEq

/-- The Percentage and Cumulative columns of the frequency table:
Percentage = round2(100 * count / total); Cumulative is round2 applied
to the running sum of the Percentage column, exactly as the source's
cumsum().round(2).  `acc` is the running sum so far. -/
def freqRows (total : ℚ) (acc : ℚ) : List (String × ℕ) → List FreqRow
  | [] => []
  | p :: ps =>
    let pct := round2 (100 * (p.2 : ℚ) / total)
    ⟨p.1, p.2, pct, round2 (acc + pct)⟩ :: freqRows total (acc + pct) ps

/-- The full (untruncated) frequency table of a coerced column:
value_counts, then percentage of the count-column total, then the
rounded cumulative sum. -/
def freqTableFull (strs : List String) : List FreqRow :=
  freqRows ((((valueCounts strs).map Prod.snd).sum : ℕ) : ℚ) 0
    (valueCounts strs)

/-- bar_chart_data(df, var_name, top_n_rows): column lookup (KeyError
when absent), fillna("N/A").astype(str), value_counts with percentage
and cumulative percentage over the full distribution, then head(n). -/
def barChartData (df : Dataset) (varName : String) (topN : ℕ) :
    Except DNErr (List FreqRow) :=
  match df.findCol varName with
  | none => .error (.columnNotFound varName)
  | some cells => .ok ((freqTableFull (cells.map coerceCell)).take topN)

/-! ### hist_data — the numeric summary aggregator -/

/-- One row of the statistics table: a statistic name and its value;
`none` models NaN (an undefined statistic). -/
structure StatRow where
  statistic : String
  value : Option ℚ
deriving DecidableEq

/-- The numeric values of a column's non-missing cells, in order.
pandas min/quantile/mean/median/std skip NaN (skipna default), so all
statistics are computed from this list. -/
def numsOf (cells : List Cell) : List ℚ :=
  cells.filterMap (fun c => c.bind Value.toNumQ)

/-- Mean of a list of rationals; none when empty (pandas mean of an
empty or all-NaN column is NaN). -/
def meanQ (xs : List ℚ) : Option ℚ :=
  if xs.length = 0 then none else some (xs.sum / (xs.length : ℚ))

/-- Sample variance, divisor n - 1 (pandas Series.std default ddof=1);
none when fewer than 2 values (pandas returns NaN). -/
def sampleVar (xs : List ℚ) : Option ℚ :=
  if xs.length < 2 then none
  else
    let m := xs.sum / (xs.length : ℚ)
    some (((xs.map (fun x => (x - m) ^ 2)).sum) / ((xs.length : ℚ) - 1))

/-- pandas Series.quantile with the default linear interpolation: for
m sorted values, position h = p * (m - 1), the value is
x_i + (h - i) * (x_{i+1} - x_i) with i = floor h.  none when there are
no values. -/
def quantileQ (xs : List ℚ) (p : ℚ) : Option ℚ :=
  if xs.length = 0 then none
  else
    let s := isortBy (fun a b : ℚ => decide (a ≤ b)) xs
    let h := p * ((xs.length : ℚ) - 1)
    let i := (⌊h⌋).toNat
    let lo := s.getD i 0
    let hi := s.getD (i + 1) lo
    some (lo + (h - (⌊h⌋ : ℚ)) * (hi - lo))

/-- The ten statistic rows of hist_data, computed from one column's
cells.  Each distribution statistic is computed on the non-missing
values (pandas skipna) and rounded to 2 decimals; NaN results stay
undefined (none).  The percent-blank is Python
round(100 * (1 - non_blank / total), 2) guarded to 0 for an empty
column. -/
def histDataCore (cells : List Cell) : List StatRow :=
  let nonBlank := cells.filterMap id
  let xs := numsOf cells
  let n := cells.length
  let m := nonBlank.length
  [ ⟨"Min", (xs.min?).map round2⟩,
    ⟨"25% Quartile", (quantileQ xs (1/4)).map round2⟩,
    ⟨"Mean", (meanQ xs).map round2⟩,
    ⟨"Median", (quantileQ xs (1/2)).map round2⟩,
    ⟨"75% Quartile", (quantileQ xs (3/4)).map round2⟩,
    ⟨"Max", (xs.max?).map round2⟩,
    ⟨"Standard Deviation", (sampleVar xs).map sqrtRound2⟩,
    ⟨"Count of Rows", some (n : ℚ)⟩,
    ⟨"Count of Rows Not Blank", some (m : ℚ)⟩,
    ⟨"% Blank",
      some (if 0 < n then round2 (100 * (1 - (m : ℚ) / (n : ℚ))) else 0)⟩ ]

/-- hist_data(df, var_name): explicit ValueError when the column is
absent; on a non-numeric column the source fails with AttributeError
when rounding the string minimum, modelled as an error; otherwise the
ten statistic rows. -/
def histData (df : Dataset) (varName : String) :
    Except DNErr (List StatRow) :=
  match df.findCol varName with
  | none => .error (.columnNotFound varName)
  | some cells =>
    if (cells.filterMap id).all Value.isNum then .ok (histDataCore cells)
    else .error (.nonNumericColumn varName)

/-! ### profile — the per-column data profile

The source builds a summary frame (one row per column: name, dtype,
missing count, percent blank, unique count, mode), transposes
describe(include="all"), rounds its numeric statistics to 2 decimals,
and left-merges the two on the column name.  With distinct column
names the left merge pairs each summary row with its single describe
row and preserves the left (original column) order, so the result is
one row per column, in order; we embed it as a map over the columns.
The merged frame drops the count / unique / top / freq describe
columns; for a non-numeric column the kept describe statistics are NaN
(or the column is absent from describe when no numeric column exists),
both modelled as none.  describe raises ValueError on a frame without
columns, before which the row-count line has already been printed. -/

/-- A row of the profile table after the merge and column drops. -/
structure ProfileRow where
  varName : String
  varType : String
  missingCount : ℕ
  /-- percent blank, rounded to whole percent, nullable Int64; none
  exactly when the dataset has 0 rows (mean of an empty column is
  NaN, which the Int64 cast turns into NA). -/
  pctBlank : Option ℤ
  uniqueValues : ℕ
  mostFrequent : Option Value
  mean : Option ℚ
  std : Option ℚ
  min : Option ℚ
  q25 : Option ℚ
  median : Option ℚ
  q75 : Option ℚ
  max : Option ℚ
deriving DecidableEq

/-- pandas dtype of a column, as a string: all-int with nothing
missing is int64; numeric otherwise is float64 (a column that is
entirely missing is modelled as NaN-filled float64 — pandas may also
infer object for a None-filled column, and every claim below is
insensitive to the choice); anything else is object. -/
def dtypeOf (cells : List Cell) : String :=
  let nb := cells.filterMap id
  if nb.all Value.isNum then
    if nb.length = cells.length && nb.all (fun v => match v with
        | .vint _ => true | _ => false) then "int64" else "float64"
  else "object"

/-- Multiplicity of a value in a list under Python equality. -/
def countVeq (l : List Value) (v : Value) : ℕ :=
  (l.filter (fun w => veq v w)).length

/-- Series.mode(dropna=True).iloc[0]: a value of maximal multiplicity
among the non-missing values, none when there are none.  pandas
returns the sorted modes' first element where the values are
comparable; the tie-break is flagged as an open question in the design
and no claim depends on it, so we keep the first-seen maximal value. -/
def modeFirst (l : List Value) : Option Value :=
  match firstSeenBy veq l with
  | [] => none
  | x :: xs =>
    some (xs.foldl (fun best y =>
      if countVeq l best < countVeq l y then y else best) x)

/-- One merged profile row, computed from one column. -/
def profileRow (name : String) (cells : List Cell) : ProfileRow :=
  let nb := cells.filterMap id
  let xs := numsOf cells
  let isNum := nb.all Value.isNum
  { varName := name
    varType := dtypeOf cells
    missingCount := cells.length - nb.length
    pctBlank :=
      if cells.length = 0 then none
      else some (round0 (100 * ((cells.length - nb.length : ℕ) : ℚ)
        / (cells.length : ℚ)))
    uniqueValues := (firstSeenBy veq nb).length
    mostFrequent := modeFirst nb
    mean := if isNum then (meanQ xs).map round2 else none
    std := if isNum then (sampleVar xs).map sqrtRound2 else none
    min := if isNum then (xs.min?).map round2 else none
    q25 := if isNum then (quantileQ xs (1/4)).map round2 else none
    median := if isNum then (quantileQ xs (1/2)).map round2 else none
    q75 := if isNum then (quantileQ xs (3/4)).map round2 else none
    max := if isNum then (xs.max?).map round2 else none }

/-- Thousands grouping of the reversed digit list, for "{:,}".format. -/
def groupThrees : List Char → List Char
  | c1 :: c2 :: c3 :: c4 :: rest => c1 :: c2 :: c3 :: ',' :: groupThrees (c4 :: rest)
  | l => l

/-- Python "{:,}".format(n): decimal digits grouped in threes by
commas. -/
def commaFmt (n : ℕ) : String :=
  String.mk (groupThrees (toString n).data.reverse).reverse

/-- The line profile prints before doing anything else. -/
def profileLog (df : Dataset) : String :=
  "ROW TOTAL = " ++ commaFmt df.nRows ++ " COLUMNS = " ++ toString df.cols.length

/-- profile(df): returns the printed lines together with the result.
The summary-frame construction succeeds for any column mix; describe
then raises ValueError when the frame has no columns; otherwise the
merge yields one row per column in the original order. -/
def profileRun (df : Dataset) :
    List String × Except DNErr (List ProfileRow) :=
  ([profileLog df],
    if df.cols.length = 0 then .error .describeNoColumns
    else .ok (df.cols.map (fun c => profileRow c.1 c.2)))

/-! ### State-passing views of the three core calls

Every pandas operation the three functions perform on the input frame
(column indexing, isna, nunique, mode, describe, fillna, astype,
value_counts, dropna, min/quantile/mean/median/max/std, merge)
allocates a new object; the one inplace drop in profile acts on the
freshly built merged frame.  So a call leaves the dataset object it
was given unchanged, which the state-passing translations record by
returning the input state. -/

/-- profile as a state transformer on the caller's dataset. -/
def profileCall (df : Dataset) :
    (List String × Except DNErr (List ProfileRow)) × Dataset :=
  (profileRun df, df)

/-- bar_chart_data as a state transformer on the caller's dataset. -/
def barChartCall (df : Dataset) (v : String) (n : ℕ) :
    Except DNErr (List FreqRow) × Dataset :=
  (barChartData df v n, df)

/-- hist_data as a state transformer on the caller's dataset. -/
def histCall (df : Dataset) (v : String) :
    Except DNErr (List StatRow) × Dataset :=
  (histData df v, df)

/-! ## Concrete datasets used by the scenario theorems -/

/-- The spec scenario: column country = [US, US, CA, null, US]. -/
def dsCountry : Dataset :=
  ⟨5, [("country", [some (.vstr "US"), some (.vstr "US"), some (.vstr "CA"),
      none, some (.vstr "US")])], by decide, by decide⟩

/-- The spec scenario: numeric column [1, 2, 3, 4, null]. -/
def dsNums : Dataset :=
  ⟨5, [("x", [some (.vint 1), some (.vint 2), some (.vint 3), some (.vint 4),
      none])], by decide, by decide⟩

/-- A two-value numeric column [0, 2], whose sample standard deviation
1.41 differs from the population value 1.00, pinning the n - 1
divisor. -/
def dsTwo : Dataset :=
  ⟨2, [("x", [some (.vint 0), some (.vint 2)])], by decide, by decide⟩

/-- A column holding the int 1 and the string "1", distinct values
with the same string form. -/
def dsIntStr : Dataset :=
  ⟨2, [("x", [some (.vint 1), some (.vstr "1")])], by decide, by decide⟩

/-- A dataset with zero columns. -/
def dsNoCols : Dataset := ⟨0, [], by decide, by decide⟩

/-- A three-row single-column dataset. -/
def dsThree : Dataset :=
  ⟨3, [("x", [some (.vint 1), some (.vint 1), some (.vint 2)])],
    by decide, by decide⟩

/-- A 0-row dataset with one column. -/
def dsZeroRows : Dataset := ⟨0, [("a", [])], by decide, by decide⟩

/-- Six distinct values occurring once each: every percentage is
16.67, so the rounded cumulative column ends at 100.02. -/
def dsSixSingles : Dataset :=
  ⟨6, [("c", [some (.vstr "u"), some (.vstr "v"), some (.vstr "w"),
      some (.vstr "x"), some (.vstr "y"), some (.vstr "z")])],
    by decide, by decide⟩

/-- A column of 4001 entries over six distinct values with counts
800, 800, 800, 800, 800, 1: each of the five major values has
percentage round2(19.995001...) = 20.00, so with top_n = 5 the last
kept row's cumulative percentage is exactly 100.00 while a sixth
value is truncated away. -/
def colFive : List Cell :=
  List.replicate 800 (some (.vstr "a")) ++ (List.replicate 800 (some (.vstr "b"))
    ++ (List.replicate 800 (some (.vstr "c"))
    ++ (List.replicate 800 (some (.vstr "d"))
    ++ (List.replicate 800 (some (.vstr "e")) ++ [some (.vstr "f")]))))

/-- The dataset holding colFive. -/
def dsFive : Dataset :=
  ⟨4001, [("c", colFive)], by simp,
    by
      intro c hc
      rw [List.mem_singleton] at hc
      subst hc
      show colFive.length = 4001
      unfold colFive
      rw [List.length_append, List.length_append, List.length_append,
        List.length_append, List.length_append]
      rw [List.length_replicate, List.length_replicate, List.length_replicate,
        List.length_replicate, List.length_replicate]
      rfl⟩

/-! ## Lemmas about the embedding -/

/-- A rational that is an integer number of hundredths, i.e. exactly
representable with 2 decimal places.  Every rounded percentage is of
this form, and round2 fixes such values. -/
def Cent (q : ℚ) : Prop := ∃ z : ℤ, q = (z : ℚ) / 100

theorem rndHE_intCast (z : ℤ) : rndHE (z : ℚ) = z := by
  unfold rndHE
  norm_num [Int.floor_intCast]

theorem cent_round2 (q : ℚ) : Cent (round2 q) := ⟨rndHE (100 * q), rfl⟩

theorem round2_eq_self {q : ℚ} (h : Cent q) : round2 q = q := by
  obtain ⟨z, rfl⟩ := h
  unfold round2
  rw [show (100 : ℚ) * ((z : ℚ) / 100) = (z : ℚ) by ring, rndHE_intCast]

theorem cent_zero : Cent 0 := ⟨0, by norm_num⟩

theorem cent_add {a b : ℚ} (ha : Cent a) (hb : Cent b) : Cent (a + b) := by
  obtain ⟨x, rfl⟩ := ha
  obtain ⟨y, rfl⟩ := hb
  exact ⟨x + y, by push_cast; ring⟩

theorem cent_sum {l : List ℚ} (h : ∀ x ∈ l, Cent x) : Cent l.sum := by
  induction l with
  | nil => simpa using cent_zero
  | cons a t ih =>
    rw [List.sum_cons]
    exact cent_add (h a (by simp)) (ih fun x hx => h x (by simp [hx]))

theorem rndHE_nonneg {q : ℚ} (h : 0 ≤ q) : 0 ≤ rndHE q := by
  have hf : (0 : ℤ) ≤ ⌊q⌋ := Int.floor_nonneg.mpr h
  unfold rndHE
  split_ifs <;> omega

theorem round2_nonneg {q : ℚ} (h : 0 ≤ q) : 0 ≤ round2 q := by
  unfold round2
  have : (0 : ℤ) ≤ rndHE (100 * q) := rndHE_nonneg (by positivity)
  positivity

/-! ### freqRows lemmas -/

theorem freqRows_map_value_count (t acc : ℚ) (l : List (String × ℕ)) :
    (freqRows t acc l).map (fun r => (r.value, r.count)) = l := by
  induction l generalizing acc with
  | nil => rfl
  | cons p ps ih => simp [freqRows, ih]

theorem freqRows_length (t acc : ℚ) (l : List (String × ℕ)) :
    (freqRows t acc l).length = l.length := by
  have := congrArg List.length (freqRows_map_value_count t acc l)
  simpa using this

theorem freqRows_take (t acc : ℚ) (n : ℕ) (l : List (String × ℕ)) :
    (freqRows t acc l).take n = freqRows t acc (l.take n) := by
  induction l generalizing acc n with
  | nil => simp [freqRows]
  | cons p ps ih =>
    cases n with
    | zero => simp [freqRows]
    | succ m => simp [freqRows, ih]

theorem freqRows_map_pct (t acc : ℚ) (l : List (String × ℕ)) :
    (freqRows t acc l).map FreqRow.percentage
      = l.map (fun p => round2 (100 * (p.2 : ℚ) / t)) := by
  induction l generalizing acc with
  | nil => rfl
  | cons p ps ih => simp [freqRows, ih]

theorem freqRows_getLast_cum (t : ℚ) {acc : ℚ} (hacc : Cent acc)
    (l : List (String × ℕ)) (hl : l ≠ []) :
    ((freqRows t acc l).map FreqRow.cumPct).getLast?
      = some (acc + (l.map (fun p => round2 (100 * (p.2 : ℚ) / t))).sum) := by
  induction l generalizing acc with
  | nil => exact absurd rfl hl
  | cons p ps ih =>
    have hc : Cent (acc + round2 (100 * (p.2 : ℚ) / t)) :=
      cent_add hacc (cent_round2 _)
    cases ps with
    | nil => simp [freqRows, round2_eq_self hc]
    | cons q qs =>
      have htail := ih hc (by simp)
      simp only [freqRows, List.map_cons]
      rw [List.getLast?_cons_cons]
      have hrw : (freqRows t (acc + round2 (100 * (p.2 : ℚ) / t)) (q :: qs)).map
          FreqRow.cumPct
          = round2 (acc + round2 (100 * (p.2 : ℚ) / t)
              + round2 (100 * (q.2 : ℚ) / t))
            :: (freqRows t
                (acc + round2 (100 * (p.2 : ℚ) / t) + round2 (100 * (q.2 : ℚ) / t))
                qs).map FreqRow.cumPct := by
        simp [freqRows]
      rw [← hrw, htail]
      simp [List.sum_cons]
      ring

theorem freqRows_cum_chain (t : ℚ) (ht : 0 ≤ t) {acc : ℚ} (hacc : Cent acc)
    (l : List (String × ℕ)) :
    List.Chain' (· ≤ ·) (acc :: (freqRows t acc l).map FreqRow.cumPct) := by
  induction l generalizing acc with
  | nil => simp [freqRows]
  | cons p ps ih =>
    have hpct : 0 ≤ round2 (100 * (p.2 : ℚ) / t) :=
      round2_nonneg (by positivity)
    have hc : Cent (acc + round2 (100 * (p.2 : ℚ) / t)) :=
      cent_add hacc (cent_round2 _)
    have hstep : acc ≤ acc + round2 (100 * (p.2 : ℚ) / t) := by linarith
    simp only [freqRows, List.map_cons, round2_eq_self hc]
    exact List.chain'_cons.mpr ⟨hstep, ih hc⟩

/-! ### Sorting and value_counts lemmas -/

theorem mem_insertLe {le : α → α → Bool} {a x : α} {l : List α} :
    a ∈ insertLe le x l ↔ a = x ∨ a ∈ l := by
  induction l with
  | nil => simp [insertLe]
  | cons y ys ih =>
    by_cases h : le x y = true
    · simp [insertLe, h]
    · simp only [insertLe, if_neg h, List.mem_cons, ih]
      tauto

theorem mem_isortBy {le : α → α → Bool} {a : α} {l : List α} :
    a ∈ isortBy le l ↔ a ∈ l := by
  induction l with
  | nil => simp [isortBy]
  | cons x xs ih =>
    show a ∈ insertLe le x (isortBy le xs) ↔ _
    rw [mem_insertLe, ih]
    simp

theorem length_insertLe (le : α → α → Bool) (x : α) (l : List α) :
    (insertLe le x l).length = l.length + 1 := by
  induction l with
  | nil => rfl
  | cons y ys ih =>
    by_cases h : le x y = true <;> simp [insertLe, h, ih]

theorem length_isortBy (le : α → α → Bool) (l : List α) :
    (isortBy le l).length = l.length := by
  induction l with
  | nil => rfl
  | cons x xs ih =>
    show (insertLe le x (isortBy le xs)).length = _
    rw [length_insertLe, ih]
    rfl

theorem mem_firstSeenAux {eq : α → α → Bool} {a : α} :
    ∀ {seen l : List α}, a ∈ firstSeenAux eq seen l → a ∈ l := by
  intro seen l
  induction l generalizing seen with
  | nil => simp [firstSeenAux]
  | cons x rest ih =>
    intro h
    by_cases hx : seen.any (fun y => eq y x) = true
    · simp only [firstSeenAux, if_pos hx] at h
      exact List.mem_cons_of_mem x (ih h)
    · simp only [firstSeenAux, if_neg hx, List.mem_cons] at h
      rcases h with h | h
      · simp [h]
      · exact List.mem_cons_of_mem x (ih h)

theorem mem_valueCounts {p : String × ℕ} {strs : List String}
    (h : p ∈ valueCounts strs) : p.1 ∈ strs ∧ p.2 = strs.count p.1 := by
  unfold valueCounts at h
  rw [List.mem_reverse, mem_isortBy, List.mem_map] at h
  obtain ⟨s, hs, rfl⟩ := h
  exact ⟨mem_firstSeenAux hs, rfl⟩

theorem valueCounts_ne_nil {strs : List String} (h : strs ≠ []) :
    valueCounts strs ≠ [] := by
  intro hcon
  have hlen := congrArg List.length hcon
  unfold valueCounts at hlen
  rw [List.length_reverse, length_isortBy, List.length_map] at hlen
  cases strs with
  | nil => exact h rfl
  | cons x rest =>
    rw [show firstSeenBy (· == ·) (x :: rest)
        = x :: firstSeenAux (· == ·) [x] rest from by
      simp [firstSeenBy, firstSeenAux]] at hlen
    simp at hlen

/-! ### firstSeenAux over replicated blocks -/

theorem firstSeenAux_seen_replicate {eq : α → α → Bool} {x : α} {seen : List α}
    (h : seen.any (fun y => eq y x) = true) (n : ℕ) (rest : List α) :
    firstSeenAux eq seen (List.replicate n x ++ rest)
      = firstSeenAux eq seen rest := by
  induction n with
  | zero => simp
  | succ m ih => simpa [List.replicate_succ, firstSeenAux, h] using ih

theorem firstSeenAux_new_replicate (eq : α → α → Bool) (x : α) (seen : List α)
    (hx : seen.any (fun y => eq y x) = false) (hxx : eq x x = true)
    (n : ℕ) (hn : n ≠ 0) (rest : List α) :
    firstSeenAux eq seen (List.replicate n x ++ rest)
      = x :: firstSeenAux eq (x :: seen) rest := by
  cases n with
  | zero => exact absurd rfl hn
  | succ m =>
    rw [List.replicate_succ, List.cons_append]
    show (if seen.any (fun y => eq y x) = true then _ else _) = _
    rw [if_neg (by simp [hx])]
    congr 1
    exact firstSeenAux_seen_replicate (by simp [hxx]) m rest

/-! ### Quantile and statistics on constant columns -/

theorem getD_replicate_of_lt {a d : α} {m i : ℕ} (h : i < m) :
    (List.replicate m a).getD i d = a := by
  induction m generalizing i with
  | zero => omega
  | succ k ih =>
    cases i with
    | zero => rfl
    | succ j => simpa [List.replicate_succ] using ih (by omega)

theorem insertLe_self_replicate (le : α → α → Bool) {x : α} (hxx : le x x = true)
    (m : ℕ) : insertLe le x (List.replicate m x) = List.replicate (m + 1) x := by
  cases m with
  | zero => rfl
  | succ k =>
    rw [List.replicate_succ]
    show (if le x x = true then _ else _) = _
    rw [if_pos hxx]
    rfl

theorem isortBy_replicate {x : α} (le : α → α → Bool) (hxx : le x x = true)
    (m : ℕ) : isortBy le (List.replicate m x) = List.replicate m x := by
  induction m with
  | zero => rfl
  | succ k ih =>
    rw [List.replicate_succ]
    show insertLe le x (isortBy le (List.replicate k x)) = _
    rw [ih, insertLe_self_replicate le hxx, List.replicate_succ]

theorem foldl_min_replicate (k : ℕ) (q : ℚ) :
    (List.replicate k q).foldl min q = q := by
  induction k with
  | zero => rfl
  | succ j ih => rw [List.replicate_succ, List.foldl_cons, min_self]; exact ih

theorem foldl_max_replicate (k : ℕ) (q : ℚ) :
    (List.replicate k q).foldl max q = q := by
  induction k with
  | zero => rfl
  | succ j ih => rw [List.replicate_succ, List.foldl_cons, max_self]; exact ih

theorem min?_replicate {q : ℚ} {m : ℕ} (h : m ≠ 0) :
    (List.replicate m q).min? = some q := by
  cases m with
  | zero => exact absurd rfl h
  | succ k =>
    rw [List.replicate_succ]
    show some ((List.replicate k q).foldl min q) = some q
    rw [foldl_min_replicate]

theorem max?_replicate {q : ℚ} {m : ℕ} (h : m ≠ 0) :
    (List.replicate m q).max? = some q := by
  cases m with
  | zero => exact absurd rfl h
  | succ k =>
    rw [List.replicate_succ]
    show some ((List.replicate k q).foldl max q) = some q
    rw [foldl_max_replicate]

theorem sum_replicate_q (m : ℕ) (q : ℚ) :
    (List.replicate m q).sum = (m : ℚ) * q := by
  rw [List.sum_replicate, nsmul_eq_mul]

theorem quantileQ_replicate {q : ℚ} {m : ℕ} (hm : m ≠ 0) (p : ℚ)
    (hp0 : 0 ≤ p) (hp1 : p ≤ 1) :
    quantileQ (List.replicate m q) p = some q := by
  have hlen : (List.replicate m q).length = m := List.length_replicate m q
  simp only [quantileQ, hlen, if_neg hm]
  rw [isortBy_replicate (fun a b : ℚ => decide (a ≤ b)) (by simp) m]
  have hh0 : 0 ≤ p * ((m : ℚ) - 1) := by
    have : (1 : ℚ) ≤ (m : ℚ) := by exact_mod_cast Nat.one_le_iff_ne_zero.mpr hm
    nlinarith
  have hh1 : p * ((m : ℚ) - 1) ≤ (m : ℚ) - 1 := by
    have : (1 : ℚ) ≤ (m : ℚ) := by exact_mod_cast Nat.one_le_iff_ne_zero.mpr hm
    nlinarith
  have hfl0 : 0 ≤ ⌊p * ((m : ℚ) - 1)⌋ := Int.floor_nonneg.mpr hh0
  have hflm : ⌊p * ((m : ℚ) - 1)⌋ < (m : ℤ) := by
    have h1 : ⌊p * ((m : ℚ) - 1)⌋ ≤ ⌊(m : ℚ) - 1⌋ := Int.floor_le_floor hh1
    have h2 : ⌊(m : ℚ) - 1⌋ = (m : ℤ) - 1 := by
      rw [show ((m : ℚ) - 1) = ((m - 1 : ℤ) : ℚ) by push_cast; ring,
        Int.floor_intCast]
    omega
  have hlt : (⌊p * ((m : ℚ) - 1)⌋).toNat < m := by
    rw [Int.toNat_lt hfl0]
    exact_mod_cast hflm
  rw [getD_replicate_of_lt hlt]
  have hhi : (List.replicate m q).getD ((⌊p * ((m : ℚ) - 1)⌋).toNat + 1) q = q := by
    by_cases hc : (⌊p * ((m : ℚ) - 1)⌋).toNat + 1 < m
    · exact getD_replicate_of_lt hc
    · exact List.getD_eq_default _ _ (by rw [hlen]; omega)
  rw [hhi]
  norm_num

theorem numsOf_replicate_num (m : ℕ) (q : ℚ) :
    numsOf (List.replicate m (some (Value.vnum q))) = List.replicate m q := by
  induction m with
  | zero => rfl
  | succ k ih =>
    rw [List.replicate_succ, List.replicate_succ]
    simp [numsOf, List.filterMap_cons, Value.toNumQ, ih]

theorem filterMap_id_replicate_some (m : ℕ) (v : Value) :
    (List.replicate m (some v)).filterMap id = List.replicate m v := by
  induction m with
  | zero => rfl
  | succ k ih =>
    rw [List.replicate_succ, List.replicate_succ]
    simp [List.filterMap_cons, ih]

theorem meanQ_replicate {m : ℕ} (hm : m ≠ 0) (q : ℚ) :
    meanQ (List.replicate m q) = some q := by
  have hm0 : ((m : ℚ)) ≠ 0 := Nat.cast_ne_zero.mpr hm
  simp only [meanQ, List.length_replicate, if_neg hm, sum_replicate_q]
  congr 1
  field_simp

theorem sampleVar_replicate {m : ℕ} (hm : 2 ≤ m) (q : ℚ) :
    sampleVar (List.replicate m q) = some 0 := by
  have hm0 : ((m : ℚ)) ≠ 0 := Nat.cast_ne_zero.mpr (by omega)
  have hmean : (List.replicate m q).sum / ((m : ℕ) : ℚ) = q := by
    rw [sum_replicate_q]
    field_simp
  simp only [sampleVar, List.length_replicate, if_neg (by omega : ¬m < 2)]
  rw [hmean, List.map_replicate]
  norm_num [sum_replicate_q]

theorem sqrtRound2_zero : sqrtRound2 0 = 0 := by
  norm_num [sqrtRound2, isqrt]

/-! ### Dropping missing values -/

theorem filterMap_id_filter_isSome (cells : List Cell) :
    (cells.filter Option.isSome).filterMap id = cells.filterMap id := by
  induction cells with
  | nil => rfl
  | cons c rest ih =>
    cases c <;> simp [List.filter_cons, List.filterMap_cons, ih]

theorem numsOf_filter_isSome (cells : List Cell) :
    numsOf (cells.filter Option.isSome) = numsOf cells := by
  unfold numsOf
  induction cells with
  | nil => rfl
  | cons c rest ih =>
    cases c with
    | none => simpa [List.filter_cons] using ih
    | some v =>
      simp only [List.filter_cons, Option.isSome, List.filterMap_cons]
      cases hv : (some v).bind Value.toNumQ <;> simp [hv, ih]

theorem filterMap_id_of_all_none {cells : List Cell}
    (h : ∀ x ∈ cells, x = none) : cells.filterMap id = [] := by
  induction cells with
  | nil => rfl
  | cons c rest ih =>
    have hc := h c (by simp)
    subst hc
    simpa [List.filterMap_cons] using ih fun x hx => h x (by simp [hx])

theorem numsOf_of_all_none {cells : List Cell}
    (h : ∀ x ∈ cells, x = none) : numsOf cells = [] := by
  induction cells with
  | nil => rfl
  | cons c rest ih =>
    have hc := h c (by simp)
    subst hc
    simpa [numsOf, List.filterMap_cons] using ih fun x hx => h x (by simp [hx])

/-- The cumulative value on the last kept row of a truncated frequency
table is the rounded sum of the kept rows' percentages: the coverage
of the shown rows only. -/
theorem freqTable_take_last_cum (strs : List String) (n : ℕ)
    (h : (freqTableFull strs).take n ≠ []) :
    (((freqTableFull strs).take n).map FreqRow.cumPct).getLast?
      = some (round2
          ((((freqTableFull strs).take n).map FreqRow.percentage).sum)) := by
  unfold freqTableFull at h ⊢
  rw [freqRows_take] at h ⊢
  have hl : (valueCounts strs).take n ≠ [] := by
    intro hcon
    rw [hcon] at h
    exact h rfl
  rw [freqRows_getLast_cum _ cent_zero _ hl, freqRows_map_pct]
  have hsum : Cent (((valueCounts strs).take n).map
      (fun p => round2 (100 * (p.2 : ℚ)
        / ((((valueCounts strs).map Prod.snd).sum : ℕ) : ℚ)))).sum := by
    apply cent_sum
    intro x hx
    rw [List.mem_map] at hx
    obtain ⟨p, _, rfl⟩ := hx
    exact cent_round2 _
  rw [round2_eq_self hsum, zero_add]

/-! ### Column lookup -/

theorem findCol_eq_none {df : Dataset} {v : String} (h : v ∉ df.names) :
    df.findCol v = none := by
  unfold Dataset.findCol
  have hnone : df.cols.find? (fun c => c.1 == v) = none := by
    rw [List.find?_eq_none]
    intro c hc hcon
    apply h
    have hcv : c.1 = v := by simpa using hcon
    rw [← hcv]
    exact List.mem_map_of_mem Prod.fst hc
  rw [hnone]
  rfl

/-! ## Claim theorems -/

/-- C2: on the column country = [US, US, CA, null, US] with top_n = 2,
bar_chart_data returns exactly the rows (US, 3, 60.00, 60.00) and
(N/A, 1, 20.00, 80.00): the coerced N/A value wins the count tie
against CA (pandas reverses a stable ascending sort for the descending
order, so equal counts appear in reverse first-seen order). -/
theorem bar_chart_country_tie :
    barChartData dsCountry "country" 2
      = .ok [⟨"US", 3, 60, 60⟩, ⟨"N/A", 1, 20, 80⟩] := by
  with_unfolding_all decide

/-- C5: on the numeric column [1, 2, 3, 4, null], hist_data reports
min = 1, max = 4, mean = 2.5, median = 2.5, total row count = 5,
non-blank count = 4, percent blank = 20.00; and in general the
distribution statistics (the first seven rows: min, quartiles, mean,
median, max, standard deviation) are unchanged by dropping the missing
cells first. -/
theorem hist_data_scenario_and_dropna :
    histData dsNums "x"
      = .ok [⟨"Min", some 1⟩, ⟨"25% Quartile", some (7/4)⟩,
          ⟨"Mean", some (5/2)⟩, ⟨"Median", some (5/2)⟩,
          ⟨"75% Quartile", some (13/4)⟩, ⟨"Max", some 4⟩,
          ⟨"Standard Deviation", some (129/100)⟩, ⟨"Count of Rows", some 5⟩,
          ⟨"Count of Rows Not Blank", some 4⟩, ⟨"% Blank", some 20⟩]
    ∧ ∀ cells : List Cell,
        (histDataCore (cells.filter Option.isSome)).take 7
          = (histDataCore cells).take 7 := by
  constructor
  · with_unfolding_all decide
  · intro cells
    simp [histDataCore, numsOf_filter_isSome]

/-- C7: both single-column aggregators raise a column-not-found error
(not a null result) whenever the requested name is absent from the
dataset. -/
theorem column_not_found_both :
    ∀ (df : Dataset) (v : String) (n : ℕ), v ∉ df.names →
      barChartData df v n = .error (.columnNotFound v)
      ∧ histData df v = .error (.columnNotFound v) := by
  intro df v n h
  have hf := findCol_eq_none h
  constructor
  · unfold barChartData
    rw [hf]
  · unfold histData
    rw [hf]

/-- C7 witness: a concrete dataset without a column named nope. -/
theorem column_not_found_both_witness :
    barChartData dsNums "nope" 6 = .error (.columnNotFound "nope")
    ∧ histData dsNums "nope" = .error (.columnNotFound "nope") :=
  column_not_found_both dsNums "nope" 6 (by decide)

/-- C9: none of the three core calls mutates the dataset it is given
(every pandas operation they perform allocates a new object), and each
call is independent of prior calls: running one call first leaves the
next call's result unchanged. -/
theorem no_mutation_and_independence :
    ∀ (df : Dataset) (v : String) (n : ℕ),
      (profileCall df).2 = df
      ∧ (barChartCall df v n).2 = df
      ∧ (histCall df v).2 = df
      ∧ barChartCall ((profileCall df).2) v n = barChartCall df v n
      ∧ profileCall ((histCall df v).2) = profileCall df
      ∧ histCall ((barChartCall df v n).2) v = histCall df v :=
  fun _ _ _ => ⟨rfl, rfl, rfl, rfl, rfl, rfl⟩

/-- C1 counterexample: on a dataset with zero columns, profile does
not return a zero-row table: describe raises ValueError (Cannot
describe a DataFrame without columns), so the call errors out. -/
theorem profile_zero_columns_error :
    (profileRun dsNoCols).2 = .error .describeNoColumns
    ∧ dsNoCols.cols.length = 0 :=
  ⟨rfl, rfl⟩

/-- C1 (amended): for every dataset with at least one column, profile
returns exactly one row per input column, in the dataset's original
column order; a zero-column dataset instead raises (see the
counterexample). -/
theorem profile_one_row_per_column :
    ∀ df : Dataset, df.cols.length ≠ 0 →
      (profileRun df).2.map List.length = .ok df.cols.length
      ∧ (profileRun df).2.map (List.map ProfileRow.varName) = .ok df.names := by
  intro df h
  have hne : ¬ df.cols = [] := by
    intro hc
    exact h (by rw [hc]; rfl)
  constructor
  · simp [profileRun, hne, Except.map]
  · simp [profileRun, hne, Except.map, Dataset.names, List.map_map]
    intro a b _
    rfl

/-- C1 witness: a concrete one-column dataset. -/
theorem profile_one_row_per_column_witness :
    (profileRun dsThree).2.map List.length = .ok dsThree.cols.length
    ∧ (profileRun dsThree).2.map (List.map ProfileRow.varName)
        = .ok dsThree.names :=
  profile_one_row_per_column dsThree (by decide)

/-- C8 counterexample: profile is not free of side effects: it always
prints a row-count line to stdout (modelled as the first component of
profileRun), so its console output is never empty. -/
theorem profile_prints_row_total :
    (profileRun dsThree).1 = ["ROW TOTAL = 3 COLUMNS = 1"]
    ∧ (profileRun dsThree).1 ≠ [] :=
  ⟨rfl, by decide⟩

/-- C8 (amended): apart from printing one summary line to stdout,
profile has no side effects, and on any dataset with at least one
column it never raises, whatever the column contents: it returns one
well-formed row per column; on a 0-row dataset every row carries a
null missing fraction, null mode and null numeric statistics and a
zero unique count, and an all-null column likewise gets a null mode
and null numeric statistics rather than an error. -/
theorem profile_total_and_nulls :
    ∀ df : Dataset, df.cols.length ≠ 0 →
      (profileRun df).2 = .ok (df.cols.map (fun c => profileRow c.1 c.2))
      ∧ (df.nRows = 0 → ∀ c ∈ df.cols,
          (profileRow c.1 c.2).pctBlank = none
          ∧ (profileRow c.1 c.2).uniqueValues = 0
          ∧ (profileRow c.1 c.2).mostFrequent = none
          ∧ (profileRow c.1 c.2).mean = none
          ∧ (profileRow c.1 c.2).std = none
          ∧ (profileRow c.1 c.2).min = none
          ∧ (profileRow c.1 c.2).q25 = none
          ∧ (profileRow c.1 c.2).median = none
          ∧ (profileRow c.1 c.2).q75 = none
          ∧ (profileRow c.1 c.2).max = none)
      ∧ (∀ c ∈ df.cols, (∀ x ∈ c.2, x = none) →
          (profileRow c.1 c.2).mostFrequent = none
          ∧ (profileRow c.1 c.2).mean = none
          ∧ (profileRow c.1 c.2).std = none
          ∧ (profileRow c.1 c.2).min = none
          ∧ (profileRow c.1 c.2).q25 = none
          ∧ (profileRow c.1 c.2).median = none
          ∧ (profileRow c.1 c.2).q75 = none
          ∧ (profileRow c.1 c.2).max = none) := by
  intro df h
  have hne : ¬ df.cols = [] := by
    intro hc
    exact h (by rw [hc]; rfl)
  refine ⟨by simp [profileRun, hne], ?_, ?_⟩
  · intro h0 c hc
    have hlen : c.2.length = 0 := by rw [df.lenEq c hc, h0]
    have hnil : c.2 = [] := List.length_eq_zero.mp hlen
    rw [hnil]
    exact ⟨rfl, rfl, rfl, rfl, rfl, rfl, rfl, rfl, rfl, rfl⟩
  · intro c _ hall
    have hnb : c.2.filterMap id = [] := filterMap_id_of_all_none hall
    have hxs : numsOf c.2 = [] := numsOf_of_all_none hall
    simp [profileRow, hnb, hxs, modeFirst, firstSeenBy, firstSeenAux, meanQ,
      sampleVar, quantileQ]

/-- C8 witness: the 0-row one-column dataset. -/
theorem profile_total_and_nulls_witness :
    (profileRun dsZeroRows).2
      = .ok (dsZeroRows.cols.map (fun c => profileRow c.1 c.2)) :=
  (profile_total_and_nulls dsZeroRows (by decide)).1

/-- C10: bar_chart_data counts string forms: the column is coerced
with fillna("N/A").astype(str) before counting, so the int 1 and the
string "1" are merged into the single category "1", and in general
every returned row's value is one of the coerced strings and its count
is the number of cells whose coerced string form equals it (the value
column holds strings by construction). -/
theorem bar_chart_counts_string_forms :
    barChartData dsIntStr "x" 6 = .ok [⟨"1", 2, 100, 100⟩]
    ∧ ∀ (df : Dataset) (v : String) (n : ℕ) (cells : List Cell)
        (rows : List FreqRow) (r : FreqRow),
        df.findCol v = some cells → barChartData df v n = .ok rows →
        r ∈ rows →
        r.value ∈ cells.map coerceCell
        ∧ r.count = (cells.map coerceCell).count r.value := by
  constructor
  · with_unfolding_all decide
  · intro df v n cells rows r hfind hok hr
    unfold barChartData at hok
    rw [hfind] at hok
    injection hok with hok
    subst hok
    have hr2 : r ∈ freqTableFull (cells.map coerceCell) :=
      List.take_subset _ _ hr
    unfold freqTableFull at hr2
    have hmem := List.mem_map_of_mem (fun row => (row.value, row.count)) hr2
    rw [freqRows_map_value_count] at hmem
    have hvc := mem_valueCounts hmem
    exact ⟨hvc.1, hvc.2⟩

/-- C10 witness: the US row of the country scenario. -/
theorem bar_chart_counts_string_forms_witness :
    (⟨"US", 3, 60, 60⟩ : FreqRow).value
      ∈ [some (Value.vstr "US"), some (Value.vstr "US"), some (Value.vstr "CA"),
          none, some (Value.vstr "US")].map coerceCell
    ∧ (⟨"US", 3, 60, 60⟩ : FreqRow).count
        = ([some (Value.vstr "US"), some (Value.vstr "US"),
            some (Value.vstr "CA"), none, some (Value.vstr "US")].map
              coerceCell).count (⟨"US", 3, 60, 60⟩ : FreqRow).value :=
  bar_chart_counts_string_forms.2 dsCountry "country" 2
    [some (Value.vstr "US"), some (Value.vstr "US"), some (Value.vstr "CA"),
      none, some (Value.vstr "US")]
    [⟨"US", 3, 60, 60⟩, ⟨"N/A", 1, 20, 80⟩] ⟨"US", 3, 60, 60⟩
    rfl (by with_unfolding_all decide) (by decide)

set_option maxRecDepth 2000 in
/-- C4 counterexample: a column of six distinct values occurring once
each, with top_n = 6 so that nothing is truncated.  Every percentage
rounds to 16.67, and the cumulative column of the untruncated table
ends at round2(6 * 16.67) = 100.02: above 100, and not equal to
100.00. -/
theorem cumulative_exceeds_100 :
    (∃ rows, barChartData dsSixSingles "c" 6 = .ok rows
      ∧ rows = freqTableFull ["u", "v", "w", "x", "y", "z"]
      ∧ (rows.map FreqRow.cumPct).getLast? = some (5001/50))
    ∧ (100 : ℚ) < 5001/50
    ∧ (5001/50 : ℚ) ≠ 100 := by
  have hmap : [some (Value.vstr "u"), some (Value.vstr "v"),
      some (Value.vstr "w"), some (Value.vstr "x"), some (Value.vstr "y"),
      some (Value.vstr "z")].map coerceCell = ["u", "v", "w", "x", "y", "z"] :=
    by decide
  have hvc : valueCounts ["u", "v", "w", "x", "y", "z"]
      = [("z", 1), ("y", 1), ("x", 1), ("w", 1), ("v", 1), ("u", 1)] := by
    with_unfolding_all decide
  have hpct : round2 (100 * ((1 : ℕ) : ℚ) / ((6 : ℕ) : ℚ)) = 1667/100 := by
    with_unfolding_all decide
  have hlen : (freqTableFull ["u", "v", "w", "x", "y", "z"]).length = 6 := by
    unfold freqTableFull
    rw [freqRows_length, hvc]
    rfl
  have hok : barChartData dsSixSingles "c" 6
      = .ok (freqTableFull ["u", "v", "w", "x", "y", "z"]) := by
    show Except.ok ((freqTableFull _).take 6) = _
    rw [hmap, ← hlen, List.take_length]
  refine ⟨⟨freqTableFull ["u", "v", "w", "x", "y", "z"], hok, rfl, ?_⟩,
    by norm_num, by norm_num⟩
  unfold freqTableFull
  rw [freqRows_getLast_cum _ cent_zero _ (by rw [hvc]; simp), hvc]
  have htot : ((List.map Prod.snd [("z", 1), ("y", 1), ("x", 1), ("w", 1),
      ("v", 1), ("u", 1)]).sum : ℕ) = 6 := rfl
  rw [htot]
  simp only [List.map_cons, List.map_nil, List.sum_cons, List.sum_nil, hpct]
  norm_num

/-- C4 (amended): the cumulative percentage column of any frequency
table is non-decreasing row to row and every value is nonnegative; the
last row of the untruncated distribution carries the rounded sum of
the rounded percentages, which approximates but need not equal 100.00
(rounding can push it above 100 or leave it below). -/
theorem cumulative_monotone_and_last :
    ∀ (df : Dataset) (v : String) (n : ℕ) (cells : List Cell)
      (rows : List FreqRow),
      df.findCol v = some cells → barChartData df v n = .ok rows →
      (List.Pairwise (· ≤ ·) (rows.map FreqRow.cumPct)
        ∧ ∀ x ∈ rows.map FreqRow.cumPct, 0 ≤ x)
      ∧ (cells ≠ [] →
          ((freqTableFull (cells.map coerceCell)).map FreqRow.cumPct).getLast?
            = some (round2
                (((freqTableFull (cells.map coerceCell)).map
                    FreqRow.percentage).sum))) := by
  intro df v n cells rows hfind hok
  unfold barChartData at hok
  rw [hfind] at hok
  injection hok with hok
  subst hok
  have hchain := freqRows_cum_chain
    (((((valueCounts (cells.map coerceCell)).map Prod.snd).sum : ℕ)) : ℚ)
    (Nat.cast_nonneg _) cent_zero (valueCounts (cells.map coerceCell))
  have hpair := (List.chain'_iff_pairwise).mp hchain
  rw [List.pairwise_cons] at hpair
  have hmt : ((freqTableFull (cells.map coerceCell)).take n).map FreqRow.cumPct
      = ((freqTableFull (cells.map coerceCell)).map FreqRow.cumPct).take n :=
    List.map_take _ _ _
  constructor
  · constructor
    · rw [hmt]
      exact List.Pairwise.sublist (List.take_sublist _ _) hpair.2
    · intro x hx
      rw [hmt] at hx
      exact hpair.1 x (List.mem_of_mem_take hx)
  · intro hcells
    have hstrne : cells.map coerceCell ≠ [] := by
      intro hcon
      exact hcells (List.map_eq_nil_iff.mp hcon)
    have hfne : freqTableFull (cells.map coerceCell) ≠ [] := by
      intro hcon
      apply valueCounts_ne_nil hstrne
      have hlen := congrArg List.length hcon
      unfold freqTableFull at hlen
      rw [freqRows_length] at hlen
      exact List.length_eq_zero.mp hlen
    have hlast := freqTable_take_last_cum (cells.map coerceCell)
      (freqTableFull (cells.map coerceCell)).length
      (by rw [List.take_length]; exact hfne)
    rwa [List.take_length] at hlast

/-- C4 witness: the country scenario, a non-empty column. -/
theorem cumulative_monotone_and_last_witness :
    (List.Pairwise (· ≤ ·)
        (([⟨"US", 3, 60, 60⟩, ⟨"N/A", 1, 20, 80⟩] : List FreqRow).map
          FreqRow.cumPct))
    ∧ ((freqTableFull ([some (Value.vstr "US"), some (Value.vstr "US"),
          some (Value.vstr "CA"), none, some (Value.vstr "US")].map
            coerceCell)).map FreqRow.cumPct).getLast?
        = some (round2 (((freqTableFull ([some (Value.vstr "US"),
            some (Value.vstr "US"), some (Value.vstr "CA"), none,
            some (Value.vstr "US")].map coerceCell)).map
              FreqRow.percentage).sum)) :=
  ⟨(cumulative_monotone_and_last dsCountry "country" 2
      [some (Value.vstr "US"), some (Value.vstr "US"), some (Value.vstr "CA"),
        none, some (Value.vstr "US")]
      [⟨"US", 3, 60, 60⟩, ⟨"N/A", 1, 20, 80⟩]
      rfl (by with_unfolding_all decide)).1.1,
   (cumulative_monotone_and_last dsCountry "country" 2
      [some (Value.vstr "US"), some (Value.vstr "US"), some (Value.vstr "CA"),
        none, some (Value.vstr "US")]
      [⟨"US", 3, 60, 60⟩, ⟨"N/A", 1, 20, 80⟩]
      rfl (by with_unfolding_all decide)).2 (by decide)⟩

/-- C6: the standard deviation hist_data reports is the sample
standard deviation (dividing by n - 1: on the column [0, 2] it is
round2(sqrt 2) = 1.41, where the population convention would give
1.00), it is null rather than an error whenever fewer than 2
non-missing values exist, and on a column of m >= 2 identical
2-decimal values q the table reads min = max = mean = median = q with
standard deviation 0. -/
theorem hist_data_std_policy :
    (∀ cells : List Cell, (numsOf cells).length < 2 →
        ((histDataCore cells).getD 6 ⟨"", none⟩).value = none)
    ∧ histData dsTwo "x"
        = .ok [⟨"Min", some 0⟩, ⟨"25% Quartile", some (1/2)⟩,
            ⟨"Mean", some 1⟩, ⟨"Median", some 1⟩, ⟨"75% Quartile", some (3/2)⟩,
            ⟨"Max", some 2⟩, ⟨"Standard Deviation", some (141/100)⟩,
            ⟨"Count of Rows", some 2⟩, ⟨"Count of Rows Not Blank", some 2⟩,
            ⟨"% Blank", some 0⟩]
    ∧ (∀ (q : ℚ) (m : ℕ), 2 ≤ m → Cent q →
        histDataCore (List.replicate m (some (Value.vnum q)))
          = [⟨"Min", some q⟩, ⟨"25% Quartile", some q⟩, ⟨"Mean", some q⟩,
              ⟨"Median", some q⟩, ⟨"75% Quartile", some q⟩, ⟨"Max", some q⟩,
              ⟨"Standard Deviation", some 0⟩,
              ⟨"Count of Rows", some ((m : ℕ) : ℚ)⟩,
              ⟨"Count of Rows Not Blank", some ((m : ℕ) : ℚ)⟩,
              ⟨"% Blank", some 0⟩]) := by
  refine ⟨?_, by with_unfolding_all decide, ?_⟩
  · intro cells hlt
    simp [histDataCore, List.getD, sampleVar, hlt]
  · intro q m hm hq
    have hm0 : m ≠ 0 := by omega
    have h0m : 0 < m := by omega
    have hmm : (1 : ℚ) - ((m : ℕ) : ℚ) / ((m : ℕ) : ℚ) = 0 := by
      have : ((m : ℕ) : ℚ) ≠ 0 := Nat.cast_ne_zero.mpr hm0
      field_simp
    simp only [histDataCore, filterMap_id_replicate_some, numsOf_replicate_num,
      List.length_replicate]
    rw [min?_replicate hm0, max?_replicate hm0, meanQ_replicate hm0,
      sampleVar_replicate hm,
      quantileQ_replicate hm0 (1/4) (by norm_num) (by norm_num),
      quantileQ_replicate hm0 (1/2) (by norm_num) (by norm_num),
      quantileQ_replicate hm0 (3/4) (by norm_num) (by norm_num)]
    simp only [Option.map_some', round2_eq_self hq, sqrtRound2_zero,
      if_pos h0m, hmm, mul_zero]
    rw [round2_eq_self cent_zero]

/-- C6 witness: a single-value column (std null) and three copies of
1.5 (all stats 1.5, std 0). -/
theorem hist_data_std_policy_witness :
    ((histDataCore [some (Value.vint 5)]).getD 6 ⟨"", none⟩).value = none
    ∧ histDataCore (List.replicate 3 (some (Value.vnum (3/2))))
        = [⟨"Min", some (3/2)⟩, ⟨"25% Quartile", some (3/2)⟩,
            ⟨"Mean", some (3/2)⟩, ⟨"Median", some (3/2)⟩,
            ⟨"75% Quartile", some (3/2)⟩, ⟨"Max", some (3/2)⟩,
            ⟨"Standard Deviation", some 0⟩,
            ⟨"Count of Rows", some ((3 : ℕ) : ℚ)⟩,
            ⟨"Count of Rows Not Blank", some ((3 : ℕ) : ℚ)⟩,
            ⟨"% Blank", some 0⟩] :=
  ⟨hist_data_std_policy.1 [some (Value.vint 5)] (by decide),
   hist_data_std_policy.2.2 (3/2) 3 (by norm_num) ⟨150, by norm_num⟩⟩

/-- C3 (amended): the cumulative percentage column is computed over
the full distribution before truncation (the returned table is a
initial segment of the full one, cumulative values unchanged), so the last
row's cumulative percentage equals the rounded sum of the shown rows'
percentages and reflects only the coverage of the shown rows; it is
generally below 100 when rows are truncated away, but 2-decimal
rounding can push it up to (or past) 100 (see the counterexample). -/
theorem cumulative_full_then_truncate :
    ∀ (df : Dataset) (v : String) (n : ℕ) (cells : List Cell),
      df.findCol v = some cells →
      barChartData df v n = .ok ((freqTableFull (cells.map coerceCell)).take n)
      ∧ ∀ rows, barChartData df v n = .ok rows → rows ≠ [] →
          (rows.map FreqRow.cumPct).getLast?
            = some (round2 ((rows.map FreqRow.percentage).sum)) := by
  intro df v n cells hfind
  have hdef : barChartData df v n
      = .ok ((freqTableFull (cells.map coerceCell)).take n) := by
    unfold barChartData
    rw [hfind]
  refine ⟨hdef, ?_⟩
  intro rows hok hne
  rw [hdef] at hok
  injection hok with hok
  subst hok
  exact freqTable_take_last_cum _ n hne

/-- C3 witness: the country scenario with top_n = 2. -/
theorem cumulative_full_then_truncate_witness :
    barChartData dsCountry "country" 2
      = .ok ((freqTableFull ([some (Value.vstr "US"), some (Value.vstr "US"),
          some (Value.vstr "CA"), none, some (Value.vstr "US")].map
            coerceCell)).take 2) :=
  (cumulative_full_then_truncate dsCountry "country" 2
    [some (Value.vstr "US"), some (Value.vstr "US"), some (Value.vstr "CA"),
      none, some (Value.vstr "US")] rfl).1

set_option maxRecDepth 2000 in
/-- C3 counterexample: the column colFive has 6 distinct values
(counts 800, 800, 800, 800, 800, 1 out of 4001 cells); with top_n = 5
one value is truncated away, yet each kept percentage is
round2(100 * 800 / 4001) = 20.00, so the cumulative percentage on the
last kept row is exactly 100.00 — not less than 100. -/
theorem cumulative_reaches_100_while_truncated :
    (∃ rows, barChartData dsFive "c" 5 = .ok rows
      ∧ rows.length = 5
      ∧ (rows.map FreqRow.cumPct).getLast? = some 100)
    ∧ (freqTableFull (colFive.map coerceCell)).length = 6 := by
  have hmap : colFive.map coerceCell
      = List.replicate 800 "a" ++ (List.replicate 800 "b"
        ++ (List.replicate 800 "c" ++ (List.replicate 800 "d"
        ++ (List.replicate 800 "e" ++ ["f"])))) := by
    unfold colFive
    simp only [List.map_append, List.map_replicate, List.map_cons,
      List.map_nil]
    rfl
  have hfs : firstSeenBy (· == ·) (colFive.map coerceCell)
      = ["a", "b", "c", "d", "e", "f"] := by
    rw [hmap]
    unfold firstSeenBy
    rw [firstSeenAux_new_replicate (· == ·) "a" [] (by decide) (by decide)
        800 (by decide) _,
      firstSeenAux_new_replicate (· == ·) "b" ["a"] (by decide) (by decide)
        800 (by decide) _,
      firstSeenAux_new_replicate (· == ·) "c" ["b", "a"] (by decide)
        (by decide) 800 (by decide) _,
      firstSeenAux_new_replicate (· == ·) "d" ["c", "b", "a"] (by decide)
        (by decide) 800 (by decide) _,
      firstSeenAux_new_replicate (· == ·) "e" ["d", "c", "b", "a"] (by decide)
        (by decide) 800 (by decide) _]
    rfl
  have hcount : ∀ s : String,
      (colFive.map coerceCell).count s
        = (if "a" == s then 800 else 0) + ((if "b" == s then 800 else 0)
          + ((if "c" == s then 800 else 0) + ((if "d" == s then 800 else 0)
          + ((if "e" == s then 800 else 0)
          + (if "f" == s then 1 else 0))))) := by
    intro s
    rw [hmap]
    rw [List.count_append, List.count_append, List.count_append,
      List.count_append, List.count_append]
    rw [List.count_replicate, List.count_replicate, List.count_replicate,
      List.count_replicate, List.count_replicate, List.count_singleton]
  have hvc : valueCounts (colFive.map coerceCell)
      = [("e", 800), ("d", 800), ("c", 800), ("b", 800), ("a", 800),
          ("f", 1)] := by
    unfold valueCounts
    rw [hfs]
    have ha : (colFive.map coerceCell).count "a" = 800 := by
      rw [hcount]
      decide
    have hb : (colFive.map coerceCell).count "b" = 800 := by
      rw [hcount]
      decide
    have hc : (colFive.map coerceCell).count "c" = 800 := by
      rw [hcount]
      decide
    have hd : (colFive.map coerceCell).count "d" = 800 := by
      rw [hcount]
      decide
    have he : (colFive.map coerceCell).count "e" = 800 := by
      rw [hcount]
      decide
    have hf : (colFive.map coerceCell).count "f" = 1 := by
      rw [hcount]
      decide
    simp only [List.map_cons, List.map_nil, ha, hb, hc, hd, he, hf]
    decide
  have htot : (((valueCounts (colFive.map coerceCell)).map Prod.snd).sum : ℕ)
      = 4001 := by
    rw [hvc]
    rfl
  have hpct : round2 (100 * ((800 : ℕ) : ℚ) / ((4001 : ℕ) : ℚ)) = 20 := by
    with_unfolding_all decide
  have hlen6 : (freqTableFull (colFive.map coerceCell)).length = 6 := by
    unfold freqTableFull
    rw [freqRows_length, hvc]
    rfl
  have hok : barChartData dsFive "c" 5
      = .ok ((freqTableFull (colFive.map coerceCell)).take 5) := rfl
  have hlen5 : ((freqTableFull (colFive.map coerceCell)).take 5).length = 5 := by
    rw [List.length_take, hlen6]
    decide
  have hne : (freqTableFull (colFive.map coerceCell)).take 5 ≠ [] := by
    intro hcon
    have := congrArg List.length hcon
    rw [hlen5] at this
    exact absurd this (by decide)
  have hlast := freqTable_take_last_cum (colFive.map coerceCell) 5 hne
  have hpcts : (((freqTableFull (colFive.map coerceCell)).take 5).map
      FreqRow.percentage).sum = 100 := by
    unfold freqTableFull
    rw [freqRows_take, freqRows_map_pct, htot, hvc]
    show (List.map _ [("e", 800), ("d", 800), ("c", 800), ("b", 800),
      ("a", 800)]).sum = 100
    simp only [List.map_cons, List.map_nil, List.sum_cons, List.sum_nil, hpct]
    norm_num
  rw [hpcts] at hlast
  rw [round2_eq_self ⟨10000, by norm_num⟩] at hlast
  exact ⟨⟨(freqTableFull (colFive.map coerceCell)).take 5, hok, hlen5, hlast⟩,
    hlen6⟩

end DataNova
